import Mathlib

/-!
Shallow embedding of `cache_manager.py` (`class CacheManager`), the LRU/TTL
result cache of the paddleocr_app repository, together with proofs of the
spec's claims about it.

Modelling conventions:
* Python's `OrderedDict` is an association list `List (String × α)` in
  insertion order, head = least recently used end (`next(iter(d))`).
* The cache directory contents (`{key}.pkl` files) are an association list
  from key to payload; `cache_index.json` is `Option (List (String × Metadata))`
  (`none` = file absent), holding already-parsed entries.
* Wall-clock time is an explicit `now : Int` argument (seconds, as
  `total_seconds()` comparisons in the source only use differences).
* `pickle` round-trips arbitrary values, so the payload store keeps the
  payload tree itself; `json.dumps` is modelled as an encoder that fails
  (raises `TypeError`) exactly on non-JSON-serializable values.
* The injectable booleans `writeOk`, `readOk`, `saveOk` model whether the
  payload `pickle.dump`, the payload `pickle.load`, and the index-file write
  performed during the call succeed; exceptions escaping a method are the
  `Except.error` result, exceptions caught inside it are folded into the
  returned state exactly where the source's `try/except` blocks sit.
* `hashlib.sha256(...).hexdigest()[:n]` is abstracted by an ambient digest
  parameter `hash : String → String`; theorems quantify over it.
-/

/-- A scalar configuration value, as found in the OCR config dict.
`vSet` stands for a value `json.dumps` cannot serialize (e.g. a Python
`set` or `bytes`), on which the encoder raises `TypeError`. -/
inductive JVal where
  | vStr (s : String)
  | vInt (n : Int)
  | vBool (b : Bool)
  | vSet (elems : List Int)
  deriving DecidableEq, Repr

/-- A configuration dict: keys with scalar values, keys pairwise distinct
in any state arising from a real Python `dict`. -/
abbrev Config := List (String × JVal)

/-- An opaque cached OCR result: arbitrary nested mapping/sequence/scalar
data, stored and retrieved via `pickle`. -/
inductive Payload where
  | pStr (s : String)
  | pInt (n : Int)
  | pBool (b : Bool)
  | pNull
  | pList (xs : List Payload)
  | pDict (kvs : List (String × Payload))

/-- Python exceptions that can escape a `CacheManager` method. -/
inductive PyErr where
  /-- `TypeError` from `json.dumps` on a non-serializable value. -/
  | typeError
  /-- `StopIteration` from `next(iter(...))` on an empty `OrderedDict`. -/
  | stopIteration
  deriving DecidableEq, Repr

/-- The metadata record stored per key in the cache index
(`CacheManager.set`, lines 210-217 of `cache_manager.py`). -/
structure Metadata where
  file_hash : String
  created_at : Int
  config_hash : String
  file_metadata : List (String × JVal)
  deriving DecidableEq, Repr

/-! ### Association-list primitives (Python `dict`/`OrderedDict`/directory) -/

/-- `d[key]` / `key in d`: value of the first entry with the given key. -/
def findVal (key : String) : List (String × α) → Option α
  | [] => none
  | (k, v) :: rest => if k = key then some v else findVal key rest

/-- `del d[key]` / `path.unlink()`: remove the entry with the given key
(the first one; real dict states have distinct keys). -/
def eraseKey (key : String) : List (String × α) → List (String × α)
  | [] => []
  | (k, v) :: rest => if k = key then rest else (k, v) :: eraseKey key rest

/-- `d[key] = v`: overwrite in place if the key is present (keeping its
position, as Python dict assignment does), else append at the end. -/
def dictAssign (key : String) (val : α) : List (String × α) → List (String × α)
  | [] => [(key, val)]
  | (k, v) :: rest =>
      if k = key then (k, val) :: rest else (k, v) :: dictAssign key val rest

/-- `OrderedDict.move_to_end(key)`: move the entry to the most-recently-used
end. (On an absent key the source raises `KeyError`; every call site invokes
it on a key just checked or just assigned, so the absent case is modelled as
the identity.) -/
def moveToEnd (key : String) (l : List (String × α)) : List (String × α) :=
  match findVal key l with
  | none => l
  | some v => eraseKey key l ++ [(key, v)]

/-- The keys of an association list are pairwise distinct — true of every
list that mirrors a Python `dict` or a directory of `{key}.pkl` files. -/
def nodupKeys (l : List (String × α)) : Prop := (l.map Prod.fst).Nodup

instance (l : List (String × α)) : Decidable (nodupKeys l) :=
  inferInstanceAs (Decidable (l.map Prod.fst).Nodup)

/-! ### JSON serialization (`json.dumps`) -/

/-- Encode one scalar value; `none` models `json.dumps` raising `TypeError`
on a non-serializable value. (String escaping is elided: no claim depends
on the exact character-level encoding.) -/
def jsonEncodeVal : JVal → Option String
  | .vStr s => some ("\"" ++ s ++ "\"")
  | .vInt n => some (toString n)
  | .vBool b => some (if b then "true" else "false")
  | .vSet _ => none

/-- Encode every element of a list, failing if any element fails —
the traversal `json.dumps` performs over a JSON array/object. -/
def encodeAll (f : α → Option String) : List α → Option (List String)
  | [] => some []
  | x :: xs =>
      match f x with
      | none => none
      | some s => (encodeAll f xs).map (fun rest => s :: rest)

/-- One `[key, value]` element of `json.dumps(config_items)`. -/
def jsonEncodePair (kv : String × JVal) : Option String :=
  (jsonEncodeVal kv.2).map (fun v => "[\"" ++ kv.1 ++ "\", " ++ v ++ "]")

/-- `json.dumps` of a list of `(key, value)` tuples (a JSON array of
two-element arrays), as in `CacheManager.compute_key`. -/
def jsonEncodeArr (items : Config) : Option String :=
  (encodeAll jsonEncodePair items).map
    (fun parts => "[" ++ String.intercalate ", " parts ++ "]")

/-- Ordering used by Python's `sorted(config.items())`: tuples compare by
first component first, and a dict's keys are distinct, so the order is by
key name. -/
def pairLE (a b : String × JVal) : Prop := a.1 ≤ b.1

instance : DecidableRel pairLE := fun a b => inferInstanceAs (Decidable (a.1 ≤ b.1))

instance : IsTotal (String × JVal) pairLE := ⟨fun a b => le_total a.1 b.1⟩

instance : IsTrans (String × JVal) pairLE := ⟨fun _ _ _ h1 h2 => le_trans h1 h2⟩

/-- `sorted(config.items())`: a stable sort of the configuration entries
by key name. -/
def pySorted (c : Config) : Config := List.insertionSort pairLE c

/-- `json.dumps(config, sort_keys=True)` on a dict (a JSON object with
sorted keys), as in the `config_hash` field of `CacheManager.set`. -/
def jsonEncodeObj (config : Config) : Option String :=
  (encodeAll (fun kv => (jsonEncodeVal kv.2).map (fun v => "\"" ++ kv.1 ++ "\": " ++ v))
      (pySorted config)).map
    (fun parts => "\x7b" ++ String.intercalate ", " parts ++ "\x7d")

/-! ### The cache state and `CacheManager` operations -/

/-- Default `ttl` (`config.py`: `CACHE_TTL = 3600`). -/
def CACHE_TTL : Int := 3600

/-- Default `max_size` (`config.py`: `MAX_CACHE_SIZE = 100`). -/
def MAX_CACHE_SIZE : Int := 100

/-- The full observable state of a `CacheManager` plus the disk it owns. -/
structure CacheState where
  enabled : Bool
  max_size : Int
  ttl : Int
  /-- `self._cache`: the in-memory `OrderedDict`, head = least recently used. -/
  cache : List (String × Metadata)
  /-- The `{key}.pkl` payload files in `cache_dir`. -/
  payloads : List (String × Payload)
  /-- `cache_index.json`, parsed; `none` when the file does not exist. -/
  index_file : Option (List (String × Metadata))

namespace CacheManager

/-- `CacheManager._save_index`: guarded by `self.enabled`; an I/O failure
(`saveOk = false`) is caught and logged, leaving the file untouched. -/
def save_index (s : CacheState) (saveOk : Bool) : CacheState :=
  if s.enabled && saveOk then { s with index_file := some s.cache } else s

/-- `CacheManager.delete`: drop the key from the in-memory index, unlink its
payload file if it exists, persist the index. Note: no `self.enabled` guard
in the source (only `_save_index` is guarded). -/
def delete (s : CacheState) (key : String) (saveOk : Bool) : CacheState :=
  save_index
    { s with cache := eraseKey key s.cache, payloads := eraseKey key s.payloads }
    saveOk

/-- Body of the eviction loop at the top of `CacheManager.set`. Each
iteration evicts `next(iter(self._cache))`, the current head of the
ordered dict; `todo` is the loop's view of that dict (`todo = s.cache` at
every call, maintained because deleting the head key leaves exactly the
tail), so the recursion is structural. `next(iter(...))` on an empty dict
raises `StopIteration`. -/
def evictGo (saveOk : Bool) : List (String × Metadata) → CacheState → Except PyErr CacheState
  | todo, s =>
    if (s.cache.length : Int) < s.max_size then .ok s
    else
      match todo with
      | [] => .error .stopIteration
      | (k, _) :: rest => evictGo saveOk rest (delete s k saveOk)

/-- The eviction loop at the top of `CacheManager.set`
(`while len(self._cache) >= self.max_size: oldest_key = next(iter(self._cache));
self.delete(oldest_key)`). -/
def evictLoop (s : CacheState) (saveOk : Bool) : Except PyErr CacheState :=
  evictGo saveOk s.cache s

/-- `CacheManager.compute_key`: sort the config items, serialize them,
concatenate with the file hash, digest. Returns `none` when `json.dumps`
raises on a non-serializable config value (the exception propagates to the
caller, since `compute_key` has no handler). -/
def compute_key (hash : String → String) (file_hash : String) (config : Config) :
    Option String :=
  (jsonEncodeArr (pySorted config)).map
    (fun config_str => hash (file_hash ++ "_" ++ config_str))

/-- `CacheManager.get`. `readOk` models the `pickle.load` of the payload
file succeeding; `saveOk` models index-file writes inside `self.delete`. -/
def get (s : CacheState) (now : Int) (file_hash : String) (config : Config)
    (hash : String → String) (readOk saveOk : Bool) :
    Except PyErr (Option Payload × CacheState) :=
  if !s.enabled then .ok (none, s)
  else
    match compute_key hash file_hash config with
    | none => .error .typeError
    | some key =>
      match findVal key s.cache with
      | none => .ok (none, s)
      | some metadata =>
        if s.ttl ≤ now - metadata.created_at then
          -- expired: delete entry and payload, report miss
          .ok (none, delete s key saveOk)
        else
          match findVal key s.payloads with
          | some result =>
            if readOk then
              .ok (some result, { s with cache := moveToEnd key s.cache })
            else
              -- pickle.load failed: delete, report miss
              .ok (none, delete s key saveOk)
          | none =>
            -- index entry exists but payload file missing: delete, miss
            .ok (none, delete s key saveOk)

/-- `CacheManager.set`. `writeOk` models the `pickle.dump` of the payload
succeeding; a failure inside the `try` block is caught and logged, so the
state reached up to that point is returned as `.ok`. -/
def set (s : CacheState) (now : Int) (file_hash : String) (config : Config)
    (result : Payload) (file_metadata : List (String × JVal))
    (hash : String → String) (writeOk saveOk : Bool) :
    Except PyErr CacheState :=
  if !s.enabled then .ok s
  else
    match compute_key hash file_hash config with
    | none => .error .typeError
    | some key =>
      -- LRU eviction, strictly before the try block
      match evictLoop s saveOk with
      | .error e => .error e
      | .ok s1 =>
        if !writeOk then .ok s1  -- pickle.dump raised; caught and logged
        else
          let s2 := { s1 with payloads := dictAssign key result s1.payloads }
          match jsonEncodeObj config with
          | none => .ok s2  -- json.dumps for config_hash raised; caught
          | some config_json =>
            let md : Metadata :=
              { file_hash := file_hash, created_at := now,
                config_hash := hash config_json, file_metadata := file_metadata }
            let s3 := { s2 with cache := moveToEnd key (dictAssign key md s2.cache) }
            .ok (save_index s3 saveOk)

/-- `CacheManager.clear`: delete every `*.pkl` file, empty the in-memory
index, unlink the index file. Guarded by `self.enabled`. -/
def clear (s : CacheState) : CacheState :=
  if !s.enabled then s
  else { s with cache := [], payloads := [], index_file := none }

/-- The dictionary returned by `CacheManager.get_stats`. -/
inductive Stats where
  | disabled
  | stats (items : Nat) (max_size ttl : Int)
  deriving DecidableEq, Repr

/-- The `items` field of a stats dictionary. -/
def Stats.items : Stats → Nat
  | .disabled => 0
  | .stats n _ _ => n

/-- `CacheManager.get_stats` (disk-size field elided). -/
def get_stats (s : CacheState) : Stats :=
  if !s.enabled then .disabled
  else .stats s.cache.length s.max_size s.ttl

/-- One step of the loading loop in `CacheManager._load_index`: a fresh
entry is assigned into `_cache` and moved to the end; an expired one is
skipped and its payload file removed. -/
def loadEntry (ttl now : Int)
    (acc : List (String × Metadata) × List (String × Payload))
    (kv : String × Metadata) :
    List (String × Metadata) × List (String × Payload) :=
  if now - kv.2.created_at < ttl then
    (moveToEnd kv.1 (dictAssign kv.1 kv.2 acc.1), acc.2)
  else
    (acc.1, eraseKey kv.1 acc.2)

/-- `CacheManager._load_index`: populate `_cache` from the persisted index
file, filtering expired entries and unlinking their payloads. (The
`json.load` parse-failure branch, which resets to an empty dict, is not
modelled: `index_file` holds already-parsed entries.) -/
def load_index (s : CacheState) (now : Int) : CacheState :=
  if !s.enabled then s
  else
    match s.index_file with
    | none => s
    | some index_data =>
      let cp := index_data.foldl (loadEntry s.ttl now) (s.cache, s.payloads)
      { s with cache := cp.1, payloads := cp.2 }

/-- `CacheManager.__init__`: record the settings, start from an empty
in-memory index, and run `_load_index` against the disk state found in
`cache_dir` at construction time. -/
def init (enabled : Bool) (max_size ttl : Int)
    (index_file : Option (List (String × Metadata)))
    (payloads : List (String × Payload)) (now : Int) : CacheState :=
  load_index
    { enabled := enabled, max_size := max_size, ttl := ttl,
      cache := [], payloads := payloads, index_file := index_file }
    now

/-- Extract the state from a non-raising `set`/`delete`-style result. -/
def okState : Except PyErr CacheState → Option CacheState
  | .ok s => some s
  | .error _ => none

end CacheManager

/-! ## Lemmas about the association-list primitives -/

theorem findVal_eq_none (k : String) (l : List (String × α)) :
    findVal k l = none ↔ k ∉ l.map Prod.fst := by
  induction l with
  | nil => simp [findVal]
  | cons kv rest ih =>
    obtain ⟨k0, v0⟩ := kv
    simp only [findVal, List.map_cons, List.mem_cons]
    by_cases h : k0 = k
    · subst h
      simp
    · simp only [if_neg h, ih]
      constructor
      · intro hn hor
        rcases hor with h1 | h1
        · exact h h1.symm
        · exact hn h1
      · exact fun hn h1 => hn (Or.inr h1)

theorem findVal_dictAssign_self (k : String) (v : α) (l : List (String × α)) :
    findVal k (dictAssign k v l) = some v := by
  induction l with
  | nil => simp [dictAssign, findVal]
  | cons kv rest ih =>
    obtain ⟨k0, v0⟩ := kv
    by_cases h : k0 = k <;> simp [dictAssign, findVal, h, ih]

theorem findVal_eraseKey_none (k' k : String) (l : List (String × α))
    (h : findVal k' l = none) : findVal k' (eraseKey k l) = none := by
  induction l with
  | nil => simpa [eraseKey] using h
  | cons kv rest ih =>
    obtain ⟨k0, v0⟩ := kv
    simp only [findVal] at h
    by_cases hk : k0 = k'
    · simp [hk] at h
    · simp only [if_neg hk] at h
      by_cases hk2 : k0 = k
      · simpa [eraseKey, hk2] using h
      · simp [eraseKey, findVal, hk, hk2, ih h]

theorem eraseKey_sublist (k : String) (l : List (String × α)) :
    (eraseKey k l).Sublist l := by
  induction l with
  | nil => simp [eraseKey]
  | cons kv rest ih =>
    obtain ⟨k0, v0⟩ := kv
    by_cases h : k0 = k
    · simp [eraseKey, h]
    · simpa [eraseKey, h] using ih.cons₂ (k0, v0)

theorem nodupKeys_eraseKey (k : String) (l : List (String × α))
    (h : nodupKeys l) : nodupKeys (eraseKey k l) :=
  h.sublist ((eraseKey_sublist k l).map Prod.fst)

theorem findVal_eraseKey_self (k : String) (l : List (String × α))
    (h : nodupKeys l) : findVal k (eraseKey k l) = none := by
  induction l with
  | nil => simp [eraseKey, findVal]
  | cons kv rest ih =>
    obtain ⟨k0, v0⟩ := kv
    simp only [nodupKeys, List.map_cons, List.nodup_cons] at h
    by_cases hk : k0 = k
    · subst hk
      simp only [eraseKey, if_pos rfl]
      exact (findVal_eq_none k0 rest).mpr h.1
    · simp [eraseKey, findVal, hk, ih h.2]

theorem eraseKey_length (k : String) (v : α) (l : List (String × α))
    (h : findVal k l = some v) : (eraseKey k l).length + 1 = l.length := by
  induction l with
  | nil => simp [findVal] at h
  | cons kv rest ih =>
    obtain ⟨k0, v0⟩ := kv
    by_cases hk : k0 = k
    · simp [eraseKey, hk]
    · simp only [findVal, hk, if_false] at h
      have := ih h
      simp only [eraseKey, if_neg hk, List.length_cons]
      omega

theorem dictAssign_cons_self (k : String) (v v0 : α) (rest : List (String × α)) :
    dictAssign k v ((k, v0) :: rest) = (k, v) :: rest := by
  simp [dictAssign]

theorem dictAssign_cons_ne (k0 k : String) (v v0 : α) (rest : List (String × α))
    (h : k0 ≠ k) :
    dictAssign k v ((k0, v0) :: rest) = (k0, v0) :: dictAssign k v rest := by
  simp [dictAssign, h]

theorem mem_keys_dictAssign (k' k : String) (v : α) (l : List (String × α)) :
    k' ∈ (dictAssign k v l).map Prod.fst ↔ k' = k ∨ k' ∈ l.map Prod.fst := by
  induction l with
  | nil => simp [dictAssign]
  | cons kv rest ih =>
    obtain ⟨k0, v0⟩ := kv
    by_cases h : k0 = k
    · subst h
      rw [dictAssign_cons_self]
      simp only [List.map_cons, List.mem_cons]
      tauto
    · rw [dictAssign_cons_ne k0 k v v0 rest h]
      simp only [List.map_cons, List.mem_cons, ih]
      tauto

theorem nodupKeys_dictAssign (k : String) (v : α) (l : List (String × α))
    (h : nodupKeys l) : nodupKeys (dictAssign k v l) := by
  induction l with
  | nil => simp [dictAssign, nodupKeys]
  | cons kv rest ih =>
    obtain ⟨k0, v0⟩ := kv
    simp only [nodupKeys, List.map_cons, List.nodup_cons] at h
    by_cases hk : k0 = k
    · subst hk
      rw [dictAssign_cons_self]
      simp only [nodupKeys, List.map_cons, List.nodup_cons]
      exact h
    · have h2 : nodupKeys (dictAssign k v rest) := ih h.2
      rw [dictAssign_cons_ne k0 k v v0 rest hk]
      simp only [nodupKeys, List.map_cons, List.nodup_cons]
      refine ⟨?_, h2⟩
      intro hmem
      rcases (mem_keys_dictAssign k0 k v rest).mp hmem with h1 | h1
      · exact hk h1
      · exact h.1 h1

theorem dictAssign_length_le (k : String) (v : α) (l : List (String × α)) :
    (dictAssign k v l).length ≤ l.length + 1 := by
  induction l with
  | nil => simp [dictAssign]
  | cons kv rest ih =>
    obtain ⟨k0, v0⟩ := kv
    by_cases h : k0 = k
    · simp [dictAssign, h]
    · simp only [dictAssign, if_neg h, List.length_cons]
      omega

theorem findVal_append_left (k : String) (v : α) (l1 l2 : List (String × α))
    (h : findVal k l1 = some v) : findVal k (l1 ++ l2) = some v := by
  induction l1 with
  | nil => simp [findVal] at h
  | cons kv rest ih =>
    obtain ⟨k0, v0⟩ := kv
    by_cases hk : k0 = k <;> simp_all [findVal, hk]

theorem findVal_append_right (k : String) (l1 l2 : List (String × α))
    (h : findVal k l1 = none) : findVal k (l1 ++ l2) = findVal k l2 := by
  induction l1 with
  | nil => simp [findVal]
  | cons kv rest ih =>
    obtain ⟨k0, v0⟩ := kv
    by_cases hk : k0 = k <;> simp_all [findVal, hk]

theorem findVal_moveToEnd_self (k : String) (v : α) (l : List (String × α))
    (hnd : nodupKeys l) (h : findVal k l = some v) :
    findVal k (moveToEnd k l) = some v := by
  unfold moveToEnd
  rw [h, findVal_append_right k _ _ (findVal_eraseKey_self k l hnd)]
  simp [findVal]

theorem moveToEnd_length (k : String) (l : List (String × α)) :
    (moveToEnd k l).length = l.length := by
  unfold moveToEnd
  cases h : findVal k l with
  | none => rfl
  | some v =>
    have := eraseKey_length k v l h
    simp [List.length_append]
    omega

theorem nodupKeys_moveToEnd (k : String) (l : List (String × α))
    (h : nodupKeys l) : nodupKeys (moveToEnd k l) := by
  unfold moveToEnd
  cases hv : findVal k l with
  | none => exact h
  | some v =>
    have h1 : nodupKeys (eraseKey k l) := nodupKeys_eraseKey k l h
    have h2 : k ∉ (eraseKey k l).map Prod.fst :=
      (findVal_eq_none k _).mp (findVal_eraseKey_self k l h)
    simp only [nodupKeys, List.map_append, List.map_cons, List.map_nil]
    rw [List.nodup_append]
    refine ⟨h1, List.nodup_singleton k, ?_⟩
    intro a ha hb
    rw [List.mem_singleton] at hb
    subst hb
    exact h2 ha

/-! ## Lemmas about the state operations -/

namespace CacheManager

theorem save_index_enabled (s : CacheState) (b : Bool) :
    (save_index s b).enabled = s.enabled := by
  unfold save_index; split <;> rfl

theorem save_index_max_size (s : CacheState) (b : Bool) :
    (save_index s b).max_size = s.max_size := by
  unfold save_index; split <;> rfl

theorem save_index_ttl (s : CacheState) (b : Bool) :
    (save_index s b).ttl = s.ttl := by
  unfold save_index; split <;> rfl

theorem save_index_cache (s : CacheState) (b : Bool) :
    (save_index s b).cache = s.cache := by
  unfold save_index; split <;> rfl

theorem save_index_payloads (s : CacheState) (b : Bool) :
    (save_index s b).payloads = s.payloads := by
  unfold save_index; split <;> rfl

theorem delete_enabled (s : CacheState) (key : String) (b : Bool) :
    (delete s key b).enabled = s.enabled := by
  unfold delete; rw [save_index_enabled]

theorem delete_max_size (s : CacheState) (key : String) (b : Bool) :
    (delete s key b).max_size = s.max_size := by
  unfold delete; rw [save_index_max_size]

theorem delete_ttl (s : CacheState) (key : String) (b : Bool) :
    (delete s key b).ttl = s.ttl := by
  unfold delete; rw [save_index_ttl]

theorem delete_cache (s : CacheState) (key : String) (b : Bool) :
    (delete s key b).cache = eraseKey key s.cache := by
  unfold delete; rw [save_index_cache]

theorem delete_payloads (s : CacheState) (key : String) (b : Bool) :
    (delete s key b).payloads = eraseKey key s.payloads := by
  unfold delete; rw [save_index_payloads]

/-- Everything the eviction loop guarantees when it completes without
raising: the settings are untouched, the resulting index is strictly under
`max_size`, eviction only ever removes entries and payloads (it never adds
any), and key-uniqueness is preserved. -/
theorem evictGo_ok {b : Bool} {todo : List (String × Metadata)} {s s1 : CacheState}
    (hinv : todo = s.cache) (h : evictGo b todo s = .ok s1) :
    s1.enabled = s.enabled ∧ s1.max_size = s.max_size ∧ s1.ttl = s.ttl ∧
    (s1.cache.length : Int) < s.max_size ∧
    (∀ k, findVal k s.cache = none → findVal k s1.cache = none) ∧
    (∀ k, findVal k s.payloads = none → findVal k s1.payloads = none) ∧
    (nodupKeys s.cache → nodupKeys s1.cache) ∧
    (nodupKeys s.payloads → nodupKeys s1.payloads) := by
  induction todo generalizing s with
  | nil =>
    unfold evictGo at h
    split at h
    · rename_i hlt
      cases h
      exact ⟨rfl, rfl, rfl, hlt, fun _ h => h, fun _ h => h, id, id⟩
    · cases h
  | cons kv rest ih =>
    obtain ⟨k, md⟩ := kv
    unfold evictGo at h
    split at h
    · rename_i hlt
      cases h
      exact ⟨rfl, rfl, rfl, hlt, fun _ h => h, fun _ h => h, id, id⟩
    · have hrest : rest = (delete s k b).cache := by
        rw [delete_cache, ← hinv, eraseKey, if_pos rfl]
      obtain ⟨h1, h2, h3, h4, h5, h6, h7, h8⟩ := ih hrest h
      rw [delete_enabled] at h1
      rw [delete_max_size] at h2
      rw [delete_ttl] at h3
      rw [delete_max_size] at h4
      refine ⟨h1, h2, h3, h4, ?_, ?_, ?_, ?_⟩
      · intro k' hk'
        exact h5 k' (by rw [delete_cache]; exact findVal_eraseKey_none k' k _ hk')
      · intro k' hk'
        exact h6 k' (by rw [delete_payloads]; exact findVal_eraseKey_none k' k _ hk')
      · intro hnd
        exact h7 (by rw [delete_cache]; exact nodupKeys_eraseKey k _ hnd)
      · intro hnd
        exact h8 (by rw [delete_payloads]; exact nodupKeys_eraseKey k _ hnd)

/-- Specialization of `evictGo_ok` to the loop's entry point. -/
theorem evictLoop_ok {b : Bool} {s s1 : CacheState}
    (h : evictLoop s b = .ok s1) :
    s1.enabled = s.enabled ∧ s1.max_size = s.max_size ∧ s1.ttl = s.ttl ∧
    (s1.cache.length : Int) < s.max_size ∧
    (∀ k, findVal k s.cache = none → findVal k s1.cache = none) ∧
    (∀ k, findVal k s.payloads = none → findVal k s1.payloads = none) ∧
    (nodupKeys s.cache → nodupKeys s1.cache) ∧
    (nodupKeys s.payloads → nodupKeys s1.payloads) :=
  evictGo_ok rfl h

/-- When the index is already strictly under `max_size` the eviction loop
does nothing. -/
theorem evictLoop_of_lt {s : CacheState} {b : Bool}
    (h : (s.cache.length : Int) < s.max_size) : evictLoop s b = .ok s := by
  unfold evictLoop evictGo
  split
  · rfl
  · omega

end CacheManager

/-! ## Lemmas about the JSON encoders and the sort -/

theorem encodeAll_eq_none_of_mem {f : α → Option String} {l : List α} {x : α}
    (hx : x ∈ l) (hf : f x = none) : encodeAll f l = none := by
  induction l with
  | nil => cases hx
  | cons y ys ih =>
    rcases List.mem_cons.mp hx with h | h
    · subst h
      simp [encodeAll, hf]
    · unfold encodeAll
      cases hfy : f y with
      | none => rfl
      | some s => rw [ih h]; rfl

theorem encodeAll_isSome_of_all {f : α → Option String} {l : List α}
    (h : ∀ x ∈ l, (f x).isSome) : (encodeAll f l).isSome := by
  induction l with
  | nil => simp [encodeAll]
  | cons y ys ih =>
    unfold encodeAll
    cases hfy : f y with
    | none =>
      have := h y (List.mem_cons_self y ys)
      rw [hfy] at this
      cases this
    | some s =>
      have := ih (fun x hx => h x (List.mem_cons_of_mem y hx))
      cases henc : encodeAll f ys with
      | none => rw [henc] at this; cases this
      | some parts => simp

theorem encodeAll_all_isSome {f : α → Option String} {l : List α}
    (h : (encodeAll f l).isSome) : ∀ x ∈ l, (f x).isSome := by
  induction l with
  | nil => intro x hx; cases hx
  | cons y ys ih =>
    intro x hx
    unfold encodeAll at h
    split at h
    · cases h
    · rename_i s hfy
      have hys : (encodeAll f ys).isSome := by
        cases henc : encodeAll f ys with
        | none => rw [henc] at h; cases h
        | some parts => rfl
      rcases List.mem_cons.mp hx with h1 | h1
      · subst h1; rw [hfy]; rfl
      · exact ih hys x h1

theorem pySorted_perm (c : Config) : (pySorted c).Perm c :=
  List.perm_insertionSort pairLE c

theorem pySorted_sorted (c : Config) : List.Sorted pairLE (pySorted c) :=
  List.sorted_insertionSort pairLE c

/-- If `compute_key` succeeded, every configuration value is serializable,
so the `json.dumps(config, sort_keys=True)` inside `set`'s `try` block
succeeds as well. -/
theorem jsonEncodeObj_isSome_of_compute_key {hash : String → String}
    {f : String} {c : Config} {key : String}
    (h : CacheManager.compute_key hash f c = some key) :
    ∃ cs, jsonEncodeObj c = some cs := by
  unfold CacheManager.compute_key jsonEncodeArr at h
  have harr : (encodeAll jsonEncodePair (pySorted c)).isSome := by
    cases henc : encodeAll jsonEncodePair (pySorted c) with
    | none => rw [henc] at h; cases h
    | some parts => rfl
  have hvals : ∀ kv ∈ pySorted c, (jsonEncodeVal kv.2).isSome := by
    intro kv hkv
    have := encodeAll_all_isSome harr kv hkv
    unfold jsonEncodePair at this
    cases hv : jsonEncodeVal kv.2 with
    | none => rw [hv] at this; cases this
    | some v => rfl
  have hobj : (encodeAll (fun kv => (jsonEncodeVal kv.2).map
      (fun v => "\"" ++ kv.1 ++ "\": " ++ v)) (pySorted c)).isSome := by
    refine encodeAll_isSome_of_all ?_
    intro kv hkv
    have := hvals kv hkv
    cases hv : jsonEncodeVal kv.2 with
    | none => rw [hv] at this; cases this
    | some v => rfl
  unfold jsonEncodeObj
  cases henc : encodeAll (fun kv => (jsonEncodeVal kv.2).map
      (fun v => "\"" ++ kv.1 ++ "\": " ++ v)) (pySorted c) with
  | none => rw [henc] at hobj; cases hobj
  | some parts => exact ⟨_, rfl⟩

/-- If some configuration value is not serializable, `compute_key` raises
(`json.dumps` `TypeError`). -/
theorem compute_key_eq_none {hash : String → String} {f : String} {c : Config}
    {k0 : String} {v0 : JVal} (hin : (k0, v0) ∈ c) (hbad : jsonEncodeVal v0 = none) :
    CacheManager.compute_key hash f c = none := by
  have hmem : (k0, v0) ∈ pySorted c := ((pySorted_perm c).mem_iff).mpr hin
  have hpair : jsonEncodePair (k0, v0) = none := by
    unfold jsonEncodePair
    rw [hbad]
    rfl
  unfold CacheManager.compute_key jsonEncodeArr
  rw [encodeAll_eq_none_of_mem hmem hpair]
  rfl

/-- Strict version of the sort order: used to show two sorted permutations
with distinct keys coincide. -/
def pairLT (a b : String × JVal) : Prop := a.1 < b.1

instance : IsAntisymm (String × JVal) pairLT :=
  ⟨fun _ _ h1 h2 => absurd h1 (lt_asymm h2)⟩

theorem pairwise_pairLT_of_sorted {l : Config} (hs : List.Sorted pairLE l)
    (hnd : nodupKeys l) : List.Pairwise pairLT l := by
  have hne : List.Pairwise (fun a b : String × JVal => a.1 ≠ b.1) l :=
    List.pairwise_map.mp hnd
  exact (hs.and hne).imp (fun h => lt_of_le_of_ne h.1 h.2)

/-- Sorting canonicalizes: two configurations with the same entries (in any
order, keys distinct) sort to the same list. -/
theorem pySorted_eq_of_perm {c1 c2 : Config} (hnd : nodupKeys c1)
    (hp : c1.Perm c2) : pySorted c1 = pySorted c2 := by
  have hperm : (pySorted c1).Perm (pySorted c2) :=
    (pySorted_perm c1).trans (hp.trans (pySorted_perm c2).symm)
  have hnd1 : nodupKeys (pySorted c1) :=
    (((pySorted_perm c1).map Prod.fst).nodup_iff).mpr hnd
  have hnd2 : nodupKeys (pySorted c2) :=
    (((pySorted_perm c2).map Prod.fst).nodup_iff).mpr
      (((hp.map Prod.fst).nodup_iff).mp hnd)
  exact List.eq_of_perm_of_sorted hperm
    (pairwise_pairLT_of_sorted (pySorted_sorted c1) hnd1)
    (pairwise_pairLT_of_sorted (pySorted_sorted c2) hnd2)

/-! ## The claims -/

/-- A fresh, enabled cache with the given capacity and ttl, as constructed
by `CacheManager.__init__` with no pre-existing disk state. -/
def emptyEnabledCache (ms ttl : Int) : CacheState :=
  { enabled := true, max_size := ms, ttl := ttl, cache := [], payloads := [],
    index_file := none }

/-- C5: `compute_key` is a pure deterministic function of its inputs: for
every file fingerprint and any two configurations holding exactly the same
key-value pairs in any iteration order (keys distinct, as in a Python
dict), the computed keys are equal — the entries are canonicalized by
sorting on key name before hashing. -/
theorem compute_key_deterministic (hash : String → String) (f : String)
    (c1 c2 : Config) (hnd : nodupKeys c1) (hp : c1.Perm c2) :
    CacheManager.compute_key hash f c1 = CacheManager.compute_key hash f c2 := by
  unfold CacheManager.compute_key
  rw [pySorted_eq_of_perm hnd hp]

/-- Witness for `compute_key_deterministic`: two orderings of the same
two-entry configuration. -/
theorem compute_key_deterministic_witness :
    nodupKeys [("b", JVal.vInt 1), ("a", JVal.vStr "x")] ∧
    CacheManager.compute_key id "f" [("b", JVal.vInt 1), ("a", JVal.vStr "x")] =
      CacheManager.compute_key id "f" [("a", JVal.vStr "x"), ("b", JVal.vInt 1)] :=
  ⟨by decide,
   compute_key_deterministic id "f" [("b", JVal.vInt 1), ("a", JVal.vStr "x")]
     [("a", JVal.vStr "x"), ("b", JVal.vInt 1)] (by decide) (by decide)⟩

/-- C9: if the configuration contains a value the JSON encoder cannot
serialize, both `get` and `set` raise the serialization error to the caller
(neither degrades to a miss nor to a logged no-op), because `compute_key`
runs before and outside every exception handler. -/
theorem unserializable_config_raises (s : CacheState) (now : Int) (f : String)
    (c : Config) (p : Payload) (m : List (String × JVal))
    (hash : String → String) (readOk writeOk saveOk : Bool)
    (k0 : String) (v0 : JVal)
    (hen : s.enabled = true) (hin : (k0, v0) ∈ c) (hbad : jsonEncodeVal v0 = none) :
    CacheManager.get s now f c hash readOk saveOk = .error .typeError ∧
    CacheManager.set s now f c p m hash writeOk saveOk = .error .typeError := by
  have hk : CacheManager.compute_key hash f c = none := compute_key_eq_none hin hbad
  constructor
  · simp [CacheManager.get, hen, hk]
  · simp [CacheManager.set, hen, hk]

/-- Witness for `unserializable_config_raises`: a config holding a Python
set value. -/
theorem unserializable_config_raises_witness :
    CacheManager.get (emptyEnabledCache 10 100) 0 "f" [("a", JVal.vSet [1])] id true true
      = .error .typeError ∧
    CacheManager.set (emptyEnabledCache 10 100) 0 "f" [("a", JVal.vSet [1])]
      Payload.pNull [] id true true = .error .typeError :=
  unserializable_config_raises (emptyEnabledCache 10 100) 0 "f"
    [("a", JVal.vSet [1])] Payload.pNull [] id true true true "a" (JVal.vSet [1])
    rfl (by decide) rfl

/-- C10: `set` on an enabled cache is total only when `max_size ≥ 1`: with a
non-positive `max_size` and an empty index, the eviction loop's
`next(iter(self._cache))` raises `StopIteration` instead of storing the
entry or acting as a no-op. -/
theorem set_raises_on_nonpositive_max_size (s : CacheState) (now : Int)
    (f : String) (c : Config) (p : Payload) (m : List (String × JVal))
    (hash : String → String) (writeOk saveOk : Bool) (key : String)
    (hen : s.enabled = true) (hms : s.max_size ≤ 0) (hempty : s.cache = [])
    (hkey : CacheManager.compute_key hash f c = some key) :
    CacheManager.set s now f c p m hash writeOk saveOk = .error .stopIteration := by
  have hev : CacheManager.evictLoop s saveOk = .error .stopIteration := by
    unfold CacheManager.evictLoop CacheManager.evictGo
    rw [hempty]
    rw [if_neg (by simpa using hms.not_lt)]
  simp [CacheManager.set, hen, hkey, hev]

/-- Witness for `set_raises_on_nonpositive_max_size`: `max_size = 0`. -/
theorem set_raises_on_nonpositive_max_size_witness :
    CacheManager.set (emptyEnabledCache 0 100) 0 "f" [] Payload.pNull [] id true true
      = .error .stopIteration :=
  set_raises_on_nonpositive_max_size (emptyEnabledCache 0 100) 0 "f" [] Payload.pNull []
    id true true "f_[]" rfl (by decide) rfl rfl

/-- C7 (counterexample): with caching DISABLED, `delete` is not a no-op —
it still unlinks an existing payload file, performing a storage deletion
(the `enabled` guard is missing from `CacheManager.delete`). -/
theorem disabled_delete_unlinks_payload :
    ({ enabled := false, max_size := 5, ttl := 100, cache := [],
       payloads := [("k", Payload.pInt 0)], index_file := none } : CacheState).payloads.length = 1 ∧
    (CacheManager.delete
      { enabled := false, max_size := 5, ttl := 100, cache := [],
        payloads := [("k", Payload.pInt 0)], index_file := none } "k" true).payloads.length = 0 :=
  ⟨rfl, rfl⟩

/-- C7 (amended): with caching disabled, `get` always misses and leaves the
state untouched, `set` and `clear` are no-ops, and so is index loading; but
`delete` still removes the key from the in-memory index and unlinks an
existing payload file (it only skips the index-file write). -/
theorem disabled_cache_noop_except_delete (s : CacheState) (now : Int)
    (f : String) (c : Config) (p : Payload) (m : List (String × JVal))
    (hash : String → String) (readOk writeOk saveOk : Bool) (key : String)
    (hdis : s.enabled = false) :
    CacheManager.get s now f c hash readOk saveOk = .ok (none, s) ∧
    CacheManager.set s now f c p m hash writeOk saveOk = .ok s ∧
    CacheManager.clear s = s ∧
    CacheManager.load_index s now = s ∧
    CacheManager.delete s key saveOk =
      { s with cache := eraseKey key s.cache, payloads := eraseKey key s.payloads } := by
  refine ⟨?_, ?_, ?_, ?_, ?_⟩
  · simp [CacheManager.get, hdis]
  · simp [CacheManager.set, hdis]
  · simp [CacheManager.clear, hdis]
  · simp [CacheManager.load_index, hdis]
  · simp [CacheManager.delete, CacheManager.save_index, hdis]

/-- A concrete disabled cache whose directory still holds one payload file
(left over from an earlier enabled run). -/
def disabledCacheExample : CacheState :=
  { enabled := false, max_size := 5, ttl := 100, cache := [],
    payloads := [("q", Payload.pInt 1)], index_file := none }

/-- Witness for `disabled_cache_noop_except_delete` at a concrete disabled
state. -/
theorem disabled_cache_noop_except_delete_witness :
    CacheManager.get disabledCacheExample 0 "f" [] id true true
      = .ok (none, disabledCacheExample) ∧
    CacheManager.set disabledCacheExample 0 "f" [] Payload.pNull [] id true true
      = .ok disabledCacheExample ∧
    CacheManager.clear disabledCacheExample = disabledCacheExample ∧
    CacheManager.load_index disabledCacheExample 0 = disabledCacheExample ∧
    CacheManager.delete disabledCacheExample "q" true
      = { disabledCacheExample with
          cache := eraseKey "q" disabledCacheExample.cache,
          payloads := eraseKey "q" disabledCacheExample.payloads } :=
  disabled_cache_noop_except_delete disabledCacheExample
    0 "f" [] Payload.pNull [] id true true true "q" rfl

/-- C1 (counterexample): right after construction the invariant
"at most max_size entries" can fail — `_load_index` filters only expired
entries and never enforces the capacity bound, so constructing with
`max_size = 1` over a persisted index holding two fresh entries yields an
in-memory index of two entries. -/
theorem load_index_overflows_max_size :
    (CacheManager.init true 1 100
      (some [("a", { file_hash := "fa", created_at := 0, config_hash := "x", file_metadata := [] }),
             ("b", { file_hash := "fb", created_at := 0, config_hash := "y", file_metadata := [] })])
      [] 0).max_size = 1 ∧
    (CacheManager.init true 1 100
      (some [("a", { file_hash := "fa", created_at := 0, config_hash := "x", file_metadata := [] }),
             ("b", { file_hash := "fb", created_at := 0, config_hash := "y", file_metadata := [] })])
      [] 0).cache.length = 2 :=
  ⟨rfl, by decide⟩

/-- C1 (amended): on an enabled cache, every completed `set` leaves the
index within `max_size`: the eviction loop runs strictly before insertion
and only returns once the count is strictly under `max_size`, so adding the
new entry cannot push it past the bound. (The bound can still be violated
right after construction — see `load_index_overflows_max_size` — because
`_load_index` does not enforce capacity.) -/
theorem set_result_within_max_size (s : CacheState) (now : Int) (f : String)
    (c : Config) (p : Payload) (m : List (String × JVal))
    (hash : String → String) (writeOk saveOk : Bool) (s' : CacheState)
    (hen : s.enabled = true)
    (h : CacheManager.set s now f c p m hash writeOk saveOk = .ok s') :
    (s'.cache.length : Int) ≤ s.max_size := by
  unfold CacheManager.set at h
  rw [hen] at h
  rw [if_neg (by simp)] at h
  split at h
  · cases h
  next key hkey =>
    split at h
    · cases h
    next s1 hev =>
      obtain ⟨-, -, -, hlt, -, -, -, -⟩ := CacheManager.evictLoop_ok hev
      split at h
      · cases h
        exact le_of_lt hlt
      · split at h
        · cases h
          exact le_of_lt hlt
        next cs hobj =>
          cases h
          simp only [CacheManager.save_index_cache, moveToEnd_length]
          have hle := dictAssign_length_le key
            { file_hash := f, created_at := now, config_hash := hash cs,
              file_metadata := m } s1.cache
          omega

/-- The state produced by a successful `set` of payload `pInt 7` under file
hash `"f"` and empty config into a fresh cache with `max_size = 1`,
`ttl = 100`, at time 0 (digest abstracted by `id`). -/
def singletonCacheAfterSet : CacheState :=
  { enabled := true, max_size := 1, ttl := 100,
    cache := [("f_[]", { file_hash := "f", created_at := 0, config_hash := "{}",
                         file_metadata := [] })],
    payloads := [("f_[]", Payload.pInt 7)],
    index_file := some [("f_[]", { file_hash := "f", created_at := 0,
                                   config_hash := "{}", file_metadata := [] })] }

/-- Witness for `set_result_within_max_size`: a successful `set` into an
empty cache with `max_size = 1` ends with exactly one entry. -/
theorem set_result_within_max_size_witness :
    ((singletonCacheAfterSet.cache.length : Int) ≤ (emptyEnabledCache 1 100).max_size) :=
  set_result_within_max_size (emptyEnabledCache 1 100) 0 "f" [] (Payload.pInt 7) []
    id true true singletonCacheAfterSet rfl rfl

/-- C4: for an entry with creation time `t0` and payload present, a `get`
whose age `now1 - t0` is strictly below `ttl` is a hit returning the stored
payload (refreshing recency), while a `get` whose age `now2 - t0` is at
least `ttl` is a miss that deletes the index entry together with its
payload — expiry is decided lazily inside `get` itself, by comparing the
age against `ttl` at call time. -/
theorem ttl_expiry_behavior (s : CacheState) (f : String) (c : Config)
    (hash : String → String) (key : String) (md : Metadata) (p : Payload)
    (readOk saveOk : Bool) (now1 now2 : Int)
    (hen : s.enabled = true)
    (hkey : CacheManager.compute_key hash f c = some key)
    (hmd : findVal key s.cache = some md)
    (hp : findVal key s.payloads = some p)
    (hndc : nodupKeys s.cache) (hndp : nodupKeys s.payloads)
    (hfresh : now1 - md.created_at < s.ttl)
    (hexp : s.ttl ≤ now2 - md.created_at) :
    CacheManager.get s now1 f c hash true saveOk
      = .ok (some p, { s with cache := moveToEnd key s.cache }) ∧
    CacheManager.get s now2 f c hash readOk saveOk
      = .ok (none, CacheManager.delete s key saveOk) ∧
    findVal key (CacheManager.delete s key saveOk).cache = none ∧
    findVal key (CacheManager.delete s key saveOk).payloads = none := by
  have hn1 : ¬ s.ttl ≤ now1 - md.created_at := not_le.mpr hfresh
  refine ⟨?_, ?_, ?_, ?_⟩
  · unfold CacheManager.get
    rw [if_neg (by simp [hen])]
    simp [hkey, hmd, hp, hn1]
  · unfold CacheManager.get
    rw [if_neg (by simp [hen])]
    simp [hkey, hmd, hexp]
  · rw [CacheManager.delete_cache]
    exact findVal_eraseKey_self key s.cache hndc
  · rw [CacheManager.delete_payloads]
    exact findVal_eraseKey_self key s.payloads hndp

/-- A cache holding one entry created at time 0 with `ttl = 10` and its
payload present. -/
def freshEntryCache : CacheState :=
  { enabled := true, max_size := 5, ttl := 10,
    cache := [("f_[]", { file_hash := "f", created_at := 0, config_hash := "c",
                         file_metadata := [] })],
    payloads := [("f_[]", Payload.pInt 3)], index_file := none }

/-- Witness for `ttl_expiry_behavior`: hit at age 9 < 10, miss-and-delete
at age 10 ≥ 10. -/
theorem ttl_expiry_behavior_witness :
    CacheManager.get freshEntryCache 9 "f" [] id true true
      = .ok (some (Payload.pInt 3),
             { freshEntryCache with cache := moveToEnd "f_[]" freshEntryCache.cache }) ∧
    CacheManager.get freshEntryCache 10 "f" [] id true true
      = .ok (none, CacheManager.delete freshEntryCache "f_[]" true) ∧
    findVal "f_[]" (CacheManager.delete freshEntryCache "f_[]" true).cache = none ∧
    findVal "f_[]" (CacheManager.delete freshEntryCache "f_[]" true).payloads = none :=
  ttl_expiry_behavior freshEntryCache "f" [] id "f_[]"
    { file_hash := "f", created_at := 0, config_hash := "c", file_metadata := [] }
    (Payload.pInt 3) true true 9 10 rfl rfl rfl rfl (by decide) (by decide)
    (by decide) (by decide)

/-- C8: an index entry that is present and unexpired but whose payload blob
is missing from storage makes `get` report a miss (without raising), remove
the dangling entry from memory and persist the removal, so a subsequent
`stats()` item count drops by one. -/
theorem missing_payload_self_heal (s : CacheState) (now : Int) (f : String)
    (c : Config) (hash : String → String) (key : String) (md : Metadata)
    (readOk : Bool)
    (hen : s.enabled = true)
    (hkey : CacheManager.compute_key hash f c = some key)
    (hmd : findVal key s.cache = some md)
    (hfresh : now - md.created_at < s.ttl)
    (hmiss : findVal key s.payloads = none)
    (hnd : nodupKeys s.cache) :
    CacheManager.get s now f c hash readOk true
      = .ok (none, CacheManager.delete s key true) ∧
    findVal key (CacheManager.delete s key true).cache = none ∧
    (CacheManager.get_stats (CacheManager.delete s key true)).items + 1
      = s.cache.length := by
  have hn1 : ¬ s.ttl ≤ now - md.created_at := not_le.mpr hfresh
  refine ⟨?_, ?_, ?_⟩
  · unfold CacheManager.get
    rw [if_neg (by simp [hen])]
    simp [hkey, hmd, hn1, hmiss]
  · rw [CacheManager.delete_cache]
    exact findVal_eraseKey_self key s.cache hnd
  · unfold CacheManager.get_stats
    rw [if_neg (by simp [CacheManager.delete_enabled, hen])]
    simp only [CacheManager.Stats.items, CacheManager.delete_cache]
    exact eraseKey_length key md s.cache hmd

/-- A cache with one unexpired index entry whose payload file is missing. -/
def danglingEntryCache : CacheState :=
  { enabled := true, max_size := 5, ttl := 10,
    cache := [("f_[]", { file_hash := "f", created_at := 0, config_hash := "c",
                         file_metadata := [] })],
    payloads := [], index_file := none }

/-- Witness for `missing_payload_self_heal`. -/
theorem missing_payload_self_heal_witness :
    CacheManager.get danglingEntryCache 5 "f" [] id true true
      = .ok (none, CacheManager.delete danglingEntryCache "f_[]" true) ∧
    findVal "f_[]" (CacheManager.delete danglingEntryCache "f_[]" true).cache = none ∧
    (CacheManager.get_stats (CacheManager.delete danglingEntryCache "f_[]" true)).items + 1
      = danglingEntryCache.cache.length :=
  missing_payload_self_heal danglingEntryCache 5 "f" [] id "f_[]"
    { file_hash := "f", created_at := 0, config_hash := "c", file_metadata := [] }
    true rfl rfl rfl (by decide) rfl (by decide)

/-- A full cache (`max_size = 1`, one entry, payload and index persisted). -/
def fullCacheExample : CacheState :=
  { enabled := true, max_size := 1, ttl := 100,
    cache := [("kold", { file_hash := "fo", created_at := 0, config_hash := "ch",
                         file_metadata := [] })],
    payloads := [("kold", Payload.pInt 0)],
    index_file := some [("kold", { file_hash := "fo", created_at := 0,
                                   config_hash := "ch", file_metadata := [] })] }

/-- C6 (counterexample): a `set` whose payload write fails is NOT observably
a no-op — the LRU evictions performed before the write attempt are not
rolled back: on a full one-slot cache the old entry (and its payload) is
evicted before the failing write, leaving the cache empty. -/
theorem failed_write_not_rolled_back :
    (CacheManager.okState
        (CacheManager.set fullCacheExample 0 "f" [] (Payload.pInt 1) [] id false true)).map
      CacheState.cache = some [] ∧
    fullCacheExample.cache.length = 1 :=
  ⟨by decide, rfl⟩

/-- The state left behind by the eviction loop on `fullCacheExample`. -/
def evictedCacheExample : CacheState :=
  { enabled := true, max_size := 1, ttl := 100, cache := [], payloads := [],
    index_file := some [] }

/-- C6 (amended): when the payload write fails, the failure is caught and
logged (`set` returns normally), no index entry is added for the new key in
memory, and the state returned is exactly the post-eviction state — in
particular, if the index was under capacity, `set` is a true no-op; but
evictions that ran before the failing write persist. -/
theorem failed_write_caught_no_new_entry (s : CacheState) (now : Int) (f : String)
    (c : Config) (p : Payload) (m : List (String × JVal)) (hash : String → String)
    (saveOk : Bool) (key : String) (s1 : CacheState)
    (hen : s.enabled = true)
    (hkey : CacheManager.compute_key hash f c = some key)
    (hev : CacheManager.evictLoop s saveOk = .ok s1) :
    CacheManager.set s now f c p m hash false saveOk = .ok s1 ∧
    (findVal key s.cache = none → findVal key s1.cache = none) ∧
    ((s.cache.length : Int) < s.max_size → s1 = s) := by
  refine ⟨?_, ?_, ?_⟩
  · unfold CacheManager.set
    rw [if_neg (by simp [hen])]
    simp [hkey, hev]
  · intro hnone
    obtain ⟨-, -, -, -, h5, -, -, -⟩ := CacheManager.evictLoop_ok hev
    exact h5 key hnone
  · intro hlt
    have h2 := (CacheManager.evictLoop_of_lt hlt).symm.trans hev
    exact (Except.ok.inj h2).symm

/-- Witness for `failed_write_caught_no_new_entry` on the full one-slot
cache. -/
theorem failed_write_caught_no_new_entry_witness :
    CacheManager.set fullCacheExample 0 "f" [] (Payload.pInt 1) [] id false true
      = .ok evictedCacheExample ∧
    (findVal "f_[]" fullCacheExample.cache = none →
      findVal "f_[]" evictedCacheExample.cache = none) ∧
    ((fullCacheExample.cache.length : Int) < fullCacheExample.max_size →
      evictedCacheExample = fullCacheExample) :=
  failed_write_caught_no_new_entry fullCacheExample 0 "f" [] (Payload.pInt 1) []
    id true "f_[]" evictedCacheExample rfl rfl rfl

/-- C2: on an enabled cache with positive `ttl`, a successful `set` of
`(f, c, p)` followed immediately by `get(f, c)` returns exactly the stored
payload `p` — the payload store round-trips the opaque result tree
losslessly (modelling `pickle` as lossless on arbitrary nested data). -/
theorem put_get_roundtrip (s : CacheState) (now : Int) (f : String) (c : Config)
    (p : Payload) (m : List (String × JVal)) (hash : String → String)
    (saveOk saveOk2 : Bool) (s' : CacheState)
    (hen : s.enabled = true) (httl : 0 < s.ttl) (hnd : nodupKeys s.cache)
    (hset : CacheManager.set s now f c p m hash true saveOk = .ok s') :
    ∃ s'', CacheManager.get s' now f c hash true saveOk2 = .ok (some p, s'') := by
  unfold CacheManager.set at hset
  rw [if_neg (by simp [hen])] at hset
  split at hset
  · cases hset
  next key hkey =>
    split at hset
    · cases hset
    next s1 hev =>
      obtain ⟨he1, -, ht1, -, -, -, hnd1, -⟩ := CacheManager.evictLoop_ok hev
      rw [if_neg (by simp)] at hset
      split at hset
      next hobj =>
        obtain ⟨cs, hcs⟩ := jsonEncodeObj_isSome_of_compute_key hkey
        rw [hobj] at hcs
        cases hcs
      next cs2 hobj =>
        cases hset
        have hnds1 : nodupKeys s1.cache := hnd1 hnd
        have hndA : nodupKeys (dictAssign key
            { file_hash := f, created_at := now, config_hash := hash cs2,
              file_metadata := m } s1.cache) :=
          nodupKeys_dictAssign key _ s1.cache hnds1
        have hfind : findVal key (moveToEnd key (dictAssign key
            { file_hash := f, created_at := now, config_hash := hash cs2,
              file_metadata := m } s1.cache))
            = some { file_hash := f, created_at := now, config_hash := hash cs2,
                     file_metadata := m } :=
          findVal_moveToEnd_self key _ _ hndA (findVal_dictAssign_self key _ s1.cache)
        have hpay : findVal key (dictAssign key p s1.payloads) = some p :=
          findVal_dictAssign_self key p s1.payloads
        have hc : ¬ s1.ttl ≤ now - now := by
          rw [ht1]
          omega
        unfold CacheManager.get
        rw [if_neg (by simp [CacheManager.save_index_enabled, he1, hen])]
        simp only [hkey, CacheManager.save_index_cache, CacheManager.save_index_payloads,
          CacheManager.save_index_ttl, hfind, hpay, hc]
        exact ⟨_, rfl⟩

/-- Witness for `put_get_roundtrip`: store `pInt 7` in an empty one-slot
cache, read it back at the same instant. -/
theorem put_get_roundtrip_witness :
    ∃ s'', CacheManager.get singletonCacheAfterSet 0 "f" [] id true true
      = .ok (some (Payload.pInt 7), s'') :=
  put_get_roundtrip (emptyEnabledCache 1 100) 0 "f" [] (Payload.pInt 7) [] id
    true true singletonCacheAfterSet rfl (by decide) (by decide) rfl

/-- Index metadata produced by `set` under digest `id` and empty config:
`config_hash` is the encoding of the empty JSON object. -/
def mdOf (f : String) (t : Int) : Metadata :=
  { file_hash := f, created_at := t, config_hash := "\x7b\x7d", file_metadata := [] }

/-- LRU scenario, state after `set "f0"` at time 0 (`max_size = 3`). -/
def lruT1 (p0 : Payload) : CacheState :=
  { enabled := true, max_size := 3, ttl := 1000,
    cache := [("f0_[]", mdOf "f0" 0)],
    payloads := [("f0_[]", p0)],
    index_file := some [("f0_[]", mdOf "f0" 0)] }

/-- LRU scenario, after `set "f1"` at time 1. -/
def lruT2 (p0 p1 : Payload) : CacheState :=
  { enabled := true, max_size := 3, ttl := 1000,
    cache := [("f0_[]", mdOf "f0" 0), ("f1_[]", mdOf "f1" 1)],
    payloads := [("f0_[]", p0), ("f1_[]", p1)],
    index_file := some [("f0_[]", mdOf "f0" 0), ("f1_[]", mdOf "f1" 1)] }

/-- LRU scenario, after `set "f2"` at time 2 (cache now full). -/
def lruT3 (p0 p1 p2 : Payload) : CacheState :=
  { enabled := true, max_size := 3, ttl := 1000,
    cache := [("f0_[]", mdOf "f0" 0), ("f1_[]", mdOf "f1" 1), ("f2_[]", mdOf "f2" 2)],
    payloads := [("f0_[]", p0), ("f1_[]", p1), ("f2_[]", p2)],
    index_file := some [("f0_[]", mdOf "f0" 0), ("f1_[]", mdOf "f1" 1),
                        ("f2_[]", mdOf "f2" 2)] }

/-- LRU scenario, after `set "f3"` at time 3: the oldest entry `"f0"` has
been evicted together with its payload. -/
def lruT4 (p1 p2 p3 : Payload) : CacheState :=
  { enabled := true, max_size := 3, ttl := 1000,
    cache := [("f1_[]", mdOf "f1" 1), ("f2_[]", mdOf "f2" 2), ("f3_[]", mdOf "f3" 3)],
    payloads := [("f1_[]", p1), ("f2_[]", p2), ("f3_[]", p3)],
    index_file := some [("f1_[]", mdOf "f1" 1), ("f2_[]", mdOf "f2" 2),
                        ("f3_[]", mdOf "f3" 3)] }

/-- LRU scenario, after the hit on `"f1"` refreshed its recency. -/
def lruT5 (p1 p2 p3 : Payload) : CacheState :=
  { lruT4 p1 p2 p3 with
    cache := [("f2_[]", mdOf "f2" 2), ("f3_[]", mdOf "f3" 3), ("f1_[]", mdOf "f1" 1)] }

/-- LRU scenario, after the subsequent hit on `"f2"`. -/
def lruT6 (p1 p2 p3 : Payload) : CacheState :=
  { lruT4 p1 p2 p3 with
    cache := [("f3_[]", mdOf "f3" 3), ("f1_[]", mdOf "f1" 1), ("f2_[]", mdOf "f2" 2)] }

/-- LRU scenario, after the subsequent hit on `"f3"`. -/
def lruT7 (p1 p2 p3 : Payload) : CacheState :=
  { lruT4 p1 p2 p3 with
    cache := [("f1_[]", mdOf "f1" 1), ("f2_[]", mdOf "f2" 2), ("f3_[]", mdOf "f3" 3)] }

/-- Recency scenario (`max_size = 2`), after `set "g0"` at time 0. -/
def recU1 (q0 : Payload) : CacheState :=
  { enabled := true, max_size := 2, ttl := 1000,
    cache := [("g0_[]", mdOf "g0" 0)],
    payloads := [("g0_[]", q0)],
    index_file := some [("g0_[]", mdOf "g0" 0)] }

/-- Recency scenario, after `set "g1"` at time 1. -/
def recU2 (q0 q1 : Payload) : CacheState :=
  { enabled := true, max_size := 2, ttl := 1000,
    cache := [("g0_[]", mdOf "g0" 0), ("g1_[]", mdOf "g1" 1)],
    payloads := [("g0_[]", q0), ("g1_[]", q1)],
    index_file := some [("g0_[]", mdOf "g0" 0), ("g1_[]", mdOf "g1" 1)] }

/-- Recency scenario, after the hit on `"g0"` moved it to the fresh end:
`"g1"` is now the least-recently-used entry. -/
def recU3 (q0 q1 : Payload) : CacheState :=
  { recU2 q0 q1 with
    cache := [("g1_[]", mdOf "g1" 1), ("g0_[]", mdOf "g0" 0)] }

/-- Recency scenario, after `set "g2"` at time 3: `"g1"` was evicted,
`"g0"` survived. -/
def recU4 (q0 q2 : Payload) : CacheState :=
  { enabled := true, max_size := 2, ttl := 1000,
    cache := [("g0_[]", mdOf "g0" 0), ("g2_[]", mdOf "g2" 3)],
    payloads := [("g0_[]", q0), ("g2_[]", q2)],
    index_file := some [("g0_[]", mdOf "g0" 0), ("g2_[]", mdOf "g2" 3)] }

/-- Recency scenario, after the confirming hit on `"g0"`. -/
def recU5 (q0 q2 : Payload) : CacheState :=
  { recU4 q0 q2 with
    cache := [("g2_[]", mdOf "g2" 3), ("g0_[]", mdOf "g0" 0)] }

/-- Recency scenario, after the final hit on `"g2"`. -/
def recU6 (q0 q2 : Payload) : CacheState :=
  { recU4 q0 q2 with
    cache := [("g0_[]", mdOf "g0" 0), ("g2_[]", mdOf "g2" 3)] }

/-- C3: capacity eviction removes exactly the least-recently-used entries
and a `get` hit refreshes recency. With `max_size = 3`, inserting four keys
in order evicts the first: `get` on it misses while the other three hit
(returning their stored payloads). With `max_size = 2`, after inserting two
keys and touching the first with a hit, inserting a third evicts the
second while the first survives. Distinct file hashes under the injective
digest `id` stand in for the distinct cache keys `k0..k3`. -/
theorem lru_eviction_scenarios (p0 p1 p2 p3 q0 q1 q2 : Payload) :
    (CacheManager.set (CacheManager.init true 3 1000 none [] 0) 0 "f0" [] p0 [] id true true
        = .ok (lruT1 p0) ∧
     CacheManager.set (lruT1 p0) 1 "f1" [] p1 [] id true true = .ok (lruT2 p0 p1) ∧
     CacheManager.set (lruT2 p0 p1) 2 "f2" [] p2 [] id true true = .ok (lruT3 p0 p1 p2) ∧
     CacheManager.set (lruT3 p0 p1 p2) 3 "f3" [] p3 [] id true true = .ok (lruT4 p1 p2 p3) ∧
     CacheManager.get (lruT4 p1 p2 p3) 10 "f0" [] id true true = .ok (none, lruT4 p1 p2 p3) ∧
     CacheManager.get (lruT4 p1 p2 p3) 11 "f1" [] id true true = .ok (some p1, lruT5 p1 p2 p3) ∧
     CacheManager.get (lruT5 p1 p2 p3) 12 "f2" [] id true true = .ok (some p2, lruT6 p1 p2 p3) ∧
     CacheManager.get (lruT6 p1 p2 p3) 13 "f3" [] id true true = .ok (some p3, lruT7 p1 p2 p3)) ∧
    (CacheManager.set (CacheManager.init true 2 1000 none [] 0) 0 "g0" [] q0 [] id true true
        = .ok (recU1 q0) ∧
     CacheManager.set (recU1 q0) 1 "g1" [] q1 [] id true true = .ok (recU2 q0 q1) ∧
     CacheManager.get (recU2 q0 q1) 2 "g0" [] id true true = .ok (some q0, recU3 q0 q1) ∧
     CacheManager.set (recU3 q0 q1) 3 "g2" [] q2 [] id true true = .ok (recU4 q0 q2) ∧
     CacheManager.get (recU4 q0 q2) 4 "g0" [] id true true = .ok (some q0, recU5 q0 q2) ∧
     CacheManager.get (recU5 q0 q2) 5 "g1" [] id true true = .ok (none, recU5 q0 q2) ∧
     CacheManager.get (recU5 q0 q2) 6 "g2" [] id true true = .ok (some q2, recU6 q0 q2)) :=
  ⟨⟨rfl, rfl, rfl, rfl, rfl, rfl, rfl, rfl⟩, ⟨rfl, rfl, rfl, rfl, rfl, rfl, rfl⟩⟩
